import Mathlib

/-!
Verification development for the household-ledger web application.

The application's core logic (calendar grid construction, month arithmetic,
monetary step rounding, transaction bucketing/aggregation, date-filter
selection, and the category registry) is shallowly embedded below.

JavaScript `Date` values are modelled by the structure `JSDate`: a local
calendar date (year, zero-based month index 0..11, day of month) plus a
time-of-day component `tod` that the calendar-field getters ignore.  The
constructor `mkDate y m d` models `new Date(y, m, d)` including ECMAScript
field normalization: the month index is reduced modulo 12 (carrying into the
year with floor semantics), and an out-of-range day-of-month rolls over into
adjacent months, exactly as `MakeDay` does.  Monetary values are modelled by
rationals; `Math.round` is `jsRound` (floor of x + 1/2, the ECMAScript
round-half-toward-positive-infinity).
-/

namespace BudgetApp

/-- ECMAScript proleptic-Gregorian leap-year rule used by `Date`. -/
def isLeap (y : Int) : Bool :=
  y % 4 == 0 && (y % 100 != 0 || y % 400 == 0)

/-- Number of days of month index `m` (0 = January .. 11 = December) of year `y`. -/
def monthLen (y m : Int) : Int :=
  if m = 1 then (if isLeap y then 29 else 28)
  else if m = 3 ∨ m = 5 ∨ m = 8 ∨ m = 10 then 30 else 31

/-- A JavaScript `Date`, viewed through its local calendar fields:
`year` = `getFullYear()`, `month` = `getMonth()` (0-based), `day` = `getDate()`,
and `tod` the time-of-day in milliseconds (ignored by all calendar getters). -/
structure JSDate where
  year : Int
  month : Int
  day : Int
  tod : Int
deriving DecidableEq, Repr

/-- Year of the month following month `m` of year `y` (for `m` in 0..11). -/
def nextY (y m : Int) : Int :=
  if m = 11 then y + 1 else y

/-- Month index of the month following month index `m` (for `m` in 0..11). -/
def nextM (m : Int) : Int :=
  if m = 11 then 0 else m + 1

/-- Year of the month preceding month `m` of year `y` (for `m` in 0..11). -/
def prevY (y m : Int) : Int :=
  if m = 0 then y - 1 else y

/-- Month index of the month preceding month index `m` (for `m` in 0..11). -/
def prevM (m : Int) : Int :=
  if m = 0 then 11 else m - 1

/-- Day-of-month overflow normalization: while the day exceeds the current
month's length, subtract that length and move to the next month.  Together
with `borrowLoop` this is ECMAScript `MakeDay` restricted to an in-range
month index. -/
def carryLoop (y m d : Int) : JSDate :=
  if d ≤ monthLen y m then ⟨y, m, d, 0⟩
  else carryLoop (nextY y m) (nextM m) (d - monthLen y m)
termination_by d.toNat
decreasing_by
  have h1 : 28 ≤ monthLen y m := by
    unfold monthLen
    split
    · split <;> omega
    · split <;> omega
  omega

/-- Day-of-month underflow normalization: while the day is below 1, move to
the previous month and add that month's length. -/
def borrowLoop (y m d : Int) : JSDate :=
  if 1 ≤ d then ⟨y, m, d, 0⟩
  else borrowLoop (prevY y m) (prevM m) (d + monthLen (prevY y m) (prevM m))
termination_by (1 - d).toNat
decreasing_by
  have h1 : 28 ≤ monthLen (prevY y m) (prevM m) := by
    unfold monthLen
    split
    · split <;> omega
    · split <;> omega
  omega

/-- `new Date(y, m, d)` (local time, midnight): normalize the month index into
0..11 carrying into the year, then normalize the day of month. -/
def mkDate (y m d : Int) : JSDate :=
  let c := carryLoop (y + m / 12) (m % 12) d
  borrowLoop c.year c.month c.day

/-- Day count since 1970-01-01 of a (normalized) date, by the standard
civil-from-days era decomposition; this is the day part of the ECMAScript
time value. -/
def daysFromCivil (dt : JSDate) : Int :=
  let y := if dt.month + 1 ≤ 2 then dt.year - 1 else dt.year
  let era := y / 400
  let yoe := y - era * 400
  let mp := (dt.month + 1 + 9) % 12
  let doy := (153 * mp + 2) / 5 + dt.day - 1
  let doe := yoe * 365 + yoe / 4 - yoe / 100 + doy
  era * 146097 + doe - 719468

/-- `Date.prototype.getDay()`: weekday index, Sunday = 0.
1970-01-01 (day count 0) was a Thursday (= 4). -/
def getDay (dt : JSDate) : Int :=
  (daysFromCivil dt + 4) % 7

/-- The representation invariant of every `JSDate` produced by the `Date`
constructor: month index in 0..11 and day of month in range. -/
def Normalized (dt : JSDate) : Prop :=
  0 ≤ dt.month ∧ dt.month ≤ 11 ∧ 1 ≤ dt.day ∧ dt.day ≤ monthLen dt.year dt.month

instance (dt : JSDate) : Decidable (Normalized dt) := by
  unfold Normalized
  exact inferInstance

/-- The calendar successor of a date: `new Date(y, m, d + 1)`. -/
def nextDay (dt : JSDate) : JSDate :=
  mkDate dt.year dt.month (dt.day + 1)

/-- Strict calendar order on dates (lexicographic on year, month, day). -/
def dateLt (a b : JSDate) : Prop :=
  a.year < b.year ∨
    (a.year = b.year ∧
      (a.month < b.month ∨ (a.month = b.month ∧ a.day < b.day)))

/-! ### Application code, embedded from `app/page.tsx` -/

inductive TransactionType where
  | income
  | expense
deriving DecidableEq, Repr

/-- A ledger row.  `created_at` is stored as a timestamp string and re-parsed
with `new Date(t.created_at)` at every use site; the embedding keeps the
parsed calendar value directly. -/
structure Transaction where
  id : Int
  amount : ℚ
  description : String
  category : String
  type : TransactionType
  created_at : JSDate
deriving DecidableEq, Repr

structure Summary where
  income : ℚ
  expense : ℚ
  balance : ℚ
deriving DecidableEq, Repr

/-- `calculateSummary`: all-time income, expense and balance. -/
def calculateSummary (transactions : List Transaction) : Summary :=
  let income := (transactions.filter (fun t => t.type == .income)).foldl
    (fun sum t => sum + t.amount) 0
  let expense := (transactions.filter (fun t => t.type == .expense)).foldl
    (fun sum t => sum + t.amount) 0
  let balance := income - expense
  ⟨income, expense, balance⟩

/-- `Math.round`: nearest integer, exact halves toward positive infinity. -/
def jsRound (x : ℚ) : Int :=
  ⌊x + 1 / 2⌋

/-- The `Math.round(value / 10) * 10` step-rounding applied on blur, on arrow
keys and before submission. -/
def roundToStep (value : ℚ) : ℚ :=
  (jsRound (value / 10) : ℚ) * 10

/-- `handleAmountBlur` on the amount field: `value` is the current field text,
`parseFloat` the ECMAScript string-to-number parse (`none` = NaN).  Returns
`some` of the numeric value written back by `setAmount`, or `none` when the
state is left unchanged. -/
def handleAmountBlur (parseFloat : String → Option ℚ) (value : String) :
    Option ℚ :=
  if value = "" then none
  else
    match parseFloat value with
    | none => none
    | some num => if 0 ≤ num then some (roundToStep num) else none

/-- `getDaysInMonth`: the 42-cell month grid.  The three source `for` loops
(leading days of the previous month, the days of the month, trailing days of
the next month) are rendered as mapped ranges; a JavaScript counting loop
with integer bounds runs `max 0 count` times, hence the `Int.toNat` on each
iteration count. -/
def getDaysInMonth (date : JSDate) : List JSDate :=
  let year := date.year
  let month := date.month
  let firstDay := mkDate year month 1
  let lastDay := mkDate year (month + 1) 0
  let daysInMonth := lastDay.day
  let startingDayOfWeek := getDay firstDay
  let prevMonth := mkDate year month 0
  let prevMonthDays := prevMonth.day
  let leading := (List.range startingDayOfWeek.toNat).map
    (fun (k : ℕ) => mkDate year (month - 1)
      (prevMonthDays - startingDayOfWeek + 1 + (k : Int)))
  let current := (List.range daysInMonth.toNat).map
    (fun (k : ℕ) => mkDate year month ((k : Int) + 1))
  let remainingDays : Int := 42 - ((leading.length : Int) + (current.length : Int))
  let trailing := (List.range remainingDays.toNat).map
    (fun (k : ℕ) => mkDate year (month + 1) ((k : Int) + 1))
  leading ++ current ++ trailing

/-- `getWeekDays`: the 7-day week grid starting at the Sunday on/before `date`. -/
def getWeekDays (date : JSDate) : List JSDate :=
  let weekStart := mkDate date.year date.month (date.day - getDay date)
  (List.range 7).map
    (fun (i : ℕ) => mkDate weekStart.year weekStart.month (weekStart.day + (i : Int)))

/-- `getTransactionsForDate`: rows whose `created_at` has the same local
calendar year, month and day as `date`. -/
def getTransactionsForDate (transactions : List Transaction) (date : JSDate) :
    List Transaction :=
  transactions.filter (fun t =>
    t.created_at.year == date.year &&
    t.created_at.month == date.month &&
    t.created_at.day == date.day)

/-- `getTotalForDate`: net signed total (income positive, expense negative)
of the rows on `date`. -/
def getTotalForDate (transactions : List Transaction) (date : JSDate) : ℚ :=
  (getTransactionsForDate transactions date).foldl
    (fun sum t => sum + (if t.type == .income then t.amount else -t.amount)) 0

/-- `getTransactionsForMonth`: rows matching `date`'s local year and month. -/
def getTransactionsForMonth (transactions : List Transaction) (date : JSDate) :
    List Transaction :=
  transactions.filter (fun t =>
    t.created_at.year == date.year && t.created_at.month == date.month)

/-- `calculateMonthlySummary`: the summary reduction restricted to one month. -/
def calculateMonthlySummary (transactions : List Transaction) (date : JSDate) :
    Summary :=
  let monthTransactions := getTransactionsForMonth transactions date
  let income := (monthTransactions.filter (fun t => t.type == .income)).foldl
    (fun sum t => sum + t.amount) 0
  let expense := (monthTransactions.filter (fun t => t.type == .expense)).foldl
    (fun sum t => sum + t.amount) 0
  ⟨income, expense, income - expense⟩

/-- `getPreviousMonth`: `const prev = new Date(date); prev.setMonth(prev.getMonth() - 1)`.
`setMonth(m)` re-runs `MakeDay` with the same year and day of month, so this
is `new Date(year, month - 1, day)` (time of day preserved). -/
def getPreviousMonth (date : JSDate) : JSDate :=
  let prev := mkDate date.year (date.month - 1) date.day
  { prev with tod := date.tod }

/-- `isDateSelected`: whether `date` matches the current filter selection,
compared by local calendar year, month and day. -/
def isDateSelected (selectedFilterDate : Option JSDate) (date : JSDate) : Bool :=
  match selectedFilterDate with
  | none => false
  | some s => date.year == s.year && date.month == s.month && date.day == s.day

/-- `handleDateClick`: clicking an already-selected date clears the filter,
otherwise the clicked date becomes the selection. -/
def handleDateClick (selectedFilterDate : Option JSDate) (date : JSDate) :
    Option JSDate :=
  if isDateSelected selectedFilterDate date then none
  else some date

/-- The category-manager state touched by `deleteCategory`: the registry and
the currently selected category. -/
structure CategoryState where
  categories : List String
  category : String
deriving DecidableEq, Repr

/-- `deleteCategory`: `confirmed` is the result of the `confirm()` dialog; the
returned flag records whether the "at least one category required" guard
alert fired.  With one category or fewer the state is untouched. -/
def deleteCategory (st : CategoryState) (catToDelete : String)
    (confirmed : Bool) : CategoryState × Bool :=
  if st.categories.length ≤ 1 then (st, true)
  else if confirmed then
    let updated := st.categories.filter (fun cat => cat != catToDelete)
    (⟨updated,
      if st.category = catToDelete ∧ 0 < updated.length then updated.headI
      else st.category⟩, false)
  else (st, false)

/-- `addCategory`: append a new label unless blank after trimming or already
present. -/
def addCategory (categories : List String) (newCategory : String) :
    List String :=
  if newCategory.trim ≠ "" ∧ ¬ categories.contains newCategory.trim then
    categories ++ [newCategory.trim]
  else categories

/-- The month-over-month percentage rendering in the summary cards: the
percentage expression `(current / previous - 1) * 100` is rendered only under
the outer `previous > 0 &&` guard, and guarded once more by the inner
ternary; `none` means the delta line is omitted. -/
def renderedDeltaPct (current previous : ℚ) : Option ℚ :=
  if previous > 0 then
    some (if previous > 0 then (current / previous - 1) * 100 else 0)
  else none

/-- Round-half-away-from-zero to a multiple of 10, as the specification words
describe `roundToStep`; kept separate from the embedded code for comparison. -/
def roundToStepAwayFromZero (value : ℚ) : ℚ :=
  (if 0 ≤ value then (⌊value / 10 + 1 / 2⌋ : Int)
   else -(⌊-value / 10 + 1 / 2⌋ : Int)) * 10

/-- Closed form of cell `i` (0-based) of the 42-cell month grid of month `m`
of year `y`: leading previous-month days up to the weekday index of the 1st,
then the month itself, then next-month padding. -/
def gridCell (y m : Int) (i : ℕ) : JSDate :=
  let s := getDay (mkDate y m 1)
  if (i : Int) < s then
    ⟨prevY y m, prevM m, monthLen (prevY y m) (prevM m) - s + 1 + (i : Int), 0⟩
  else if (i : Int) < s + monthLen y m then
    ⟨y, m, (i : Int) - s + 1, 0⟩
  else
    ⟨nextY y m, nextM m, (i : Int) - s - monthLen y m + 1, 0⟩

instance : IsTrans JSDate dateLt where
  trans := by
    intro a b c hab hbc
    unfold dateLt at hab hbc ⊢
    omega

/-! ### Arithmetic facts about the date model -/

theorem monthLen_lb (y m : Int) : 28 ≤ monthLen y m := by
  unfold monthLen
  split
  · split <;> omega
  · split <;> omega

theorem monthLen_ub (y m : Int) : monthLen y m ≤ 31 := by
  unfold monthLen
  split
  · split <;> omega
  · split <;> omega

/-! ### Evaluation lemmas for the date constructor -/

theorem carryLoop_of_le {y m d : Int} (h : d ≤ monthLen y m) :
    carryLoop y m d = ⟨y, m, d, 0⟩ := by
  unfold carryLoop
  simp [h]

theorem carryLoop_step {y m d : Int} (h : ¬ d ≤ monthLen y m) :
    carryLoop y m d = carryLoop (nextY y m) (nextM m) (d - monthLen y m) := by
  conv_lhs => unfold carryLoop
  simp [h]

theorem borrowLoop_of_ge {y m d : Int} (h : 1 ≤ d) :
    borrowLoop y m d = ⟨y, m, d, 0⟩ := by
  unfold borrowLoop
  simp [h]

theorem borrowLoop_step {y m d : Int} (h : ¬ 1 ≤ d) :
    borrowLoop y m d =
      borrowLoop (prevY y m) (prevM m) (d + monthLen (prevY y m) (prevM m)) := by
  conv_lhs => unfold borrowLoop
  simp [h]

theorem nextM_prevM {m : Int} (hm0 : 0 ≤ m) (hm1 : m ≤ 11) :
    nextM (prevM m) = m := by
  unfold nextM prevM
  split
  · split <;> omega
  · split <;> omega

theorem nextY_prevYM {y m : Int} (hm0 : 0 ≤ m) (hm1 : m ≤ 11) :
    nextY (prevY y m) (prevM m) = y := by
  unfold nextY prevY prevM
  split
  · split <;> omega
  · split <;> omega

theorem prevM_range {m : Int} (hm0 : 0 ≤ m) (hm1 : m ≤ 11) :
    0 ≤ prevM m ∧ prevM m ≤ 11 := by
  unfold prevM
  split <;> omega

theorem nextM_range {m : Int} (hm0 : 0 ≤ m) (hm1 : m ≤ 11) :
    0 ≤ nextM m ∧ nextM m ≤ 11 := by
  unfold nextM
  split <;> omega

/-- `new Date(y, m, d)` with all fields already in range is a no-op. -/
theorem mkDate_self {y m d : Int} (hm0 : 0 ≤ m) (hm1 : m ≤ 11)
    (hd1 : 1 ≤ d) (hd2 : d ≤ monthLen y m) : mkDate y m d = ⟨y, m, d, 0⟩ := by
  have h1 : m / 12 = 0 := by omega
  have h2 : m % 12 = m := by omega
  simp [mkDate, h1, h2, carryLoop_of_le hd2, borrowLoop_of_ge hd1]

/-- `new Date(y, m, 0)` is the last day of the month preceding month `m`. -/
theorem mkDate_zero {y m : Int} (hm0 : 0 ≤ m) (hm1 : m ≤ 11) :
    mkDate y m 0 =
      ⟨prevY y m, prevM m, monthLen (prevY y m) (prevM m), 0⟩ := by
  have h1 : m / 12 = 0 := by omega
  have h2 : m % 12 = m := by omega
  have hlen := monthLen_lb (prevY y m) (prevM m)
  have hc := carryLoop_of_le
    (show (0 : Int) ≤ monthLen y m from by have := monthLen_lb y m; omega)
  have hb1 := @borrowLoop_step y m 0 (by omega)
  rw [zero_add] at hb1
  have hb2 := @borrowLoop_of_ge (prevY y m) (prevM m)
    (monthLen (prevY y m) (prevM m)) (by omega)
  simp [mkDate, h1, h2, hc, hb1, hb2]

/-- `new Date(y, m + 1, 0)` is the last day of month `m` itself. -/
theorem mkDate_succ_zero {y m : Int} (hm0 : 0 ≤ m) (hm1 : m ≤ 11) :
    mkDate y (m + 1) 0 = ⟨y, m, monthLen y m, 0⟩ := by
  rcases eq_or_ne m 11 with h | h
  · subst h
    have h1 : ((11 : Int) + 1) / 12 = 1 := by decide
    have h2 : ((11 : Int) + 1) % 12 = 0 := by decide
    have h31 : monthLen y 11 = 31 := by unfold monthLen; norm_num
    have hc := carryLoop_of_le
      (show (0 : Int) ≤ monthLen (y + 1) 0 from by
        have := monthLen_lb (y + 1) 0; omega)
    have hb1 := @borrowLoop_step (y + 1) 0 0 (by omega)
    rw [zero_add] at hb1
    have hpy : prevY (y + 1) 0 = y := by unfold prevY; simp
    have hpm : prevM 0 = 11 := by unfold prevM; simp
    rw [hpy, hpm, h31] at hb1
    have hb2 := @borrowLoop_of_ge y 11 31 (by omega)
    simp [mkDate, h1, h2, hc, hb1, hb2, h31]
  · have hstep : mkDate y (m + 1) 0 =
        ⟨prevY y (m + 1), prevM (m + 1),
          monthLen (prevY y (m + 1)) (prevM (m + 1)), 0⟩ :=
      mkDate_zero (by omega) (by omega)
    have hpy : prevY y (m + 1) = y := by unfold prevY; rw [if_neg (by omega)]
    have hpm : prevM (m + 1) = m := by unfold prevM; rw [if_neg (by omega)]; omega
    rw [hstep, hpy, hpm]

/-- `new Date(y, m - 1, d)` for a day in range of the previous month. -/
theorem mkDate_pred_month {y m d : Int} (hm0 : 0 ≤ m) (hm1 : m ≤ 11)
    (hd1 : 1 ≤ d) (hd2 : d ≤ monthLen (prevY y m) (prevM m)) :
    mkDate y (m - 1) d = ⟨prevY y m, prevM m, d, 0⟩ := by
  rcases eq_or_ne m 0 with h | h
  · subst h
    have hpy : prevY y 0 = y - 1 := by unfold prevY; simp
    have hpm : prevM 0 = 11 := by unfold prevM; simp
    rw [hpy, hpm] at hd2 ⊢
    have h1 : ((0 : Int) - 1) / 12 = -1 := by decide
    have h2 : ((0 : Int) - 1) % 12 = 11 := by decide
    have hy : y + (-1) = y - 1 := by ring
    simp [mkDate, h1, h2, hy, carryLoop_of_le hd2, borrowLoop_of_ge hd1]
  · have hpy : prevY y m = y := by unfold prevY; rw [if_neg h]
    have hpm : prevM m = m - 1 := by unfold prevM; rw [if_neg h]
    rw [hpy, hpm] at hd2 ⊢
    exact mkDate_self (by omega) (by omega) hd1 hd2

/-- `new Date(y, m + 1, d)` for a day in range of the next month. -/
theorem mkDate_succ_month {y m d : Int} (hm0 : 0 ≤ m) (hm1 : m ≤ 11)
    (hd1 : 1 ≤ d) (hd2 : d ≤ monthLen (nextY y m) (nextM m)) :
    mkDate y (m + 1) d = ⟨nextY y m, nextM m, d, 0⟩ := by
  rcases eq_or_ne m 11 with h | h
  · subst h
    have hny : nextY y 11 = y + 1 := by unfold nextY; simp
    have hnm : nextM 11 = 0 := by unfold nextM; simp
    rw [hny, hnm] at hd2 ⊢
    have h1 : ((11 : Int) + 1) / 12 = 1 := by decide
    have h2 : ((11 : Int) + 1) % 12 = 0 := by decide
    simp [mkDate, h1, h2, carryLoop_of_le hd2, borrowLoop_of_ge hd1]
  · have hny : nextY y m = y := by unfold nextY; rw [if_neg h]
    have hnm : nextM m = m + 1 := by unfold nextM; rw [if_neg h]
    rw [hny, hnm] at hd2 ⊢
    exact mkDate_self (by omega) (by omega) hd1 hd2

/-- Incrementing past the end of a month lands on the 1st of the next month. -/
theorem mkDate_rollover {y m : Int} (hm0 : 0 ≤ m) (hm1 : m ≤ 11) :
    mkDate y m (monthLen y m + 1) = ⟨nextY y m, nextM m, 1, 0⟩ := by
  have h1 : m / 12 = 0 := by omega
  have h2 : m % 12 = m := by omega
  have hc1 := @carryLoop_step y m (monthLen y m + 1) (by omega)
  have hd : monthLen y m + 1 - monthLen y m = 1 := by ring
  rw [hd] at hc1
  have hc2 := @carryLoop_of_le (nextY y m) (nextM m) 1
    (by have := monthLen_lb (nextY y m) (nextM m); omega)
  simp [mkDate, h1, h2, hc1, hc2, borrowLoop_of_ge (by omega : (1 : Int) ≤ 1)]

/-! ### The month grid -/

theorem getDay_lb (dt : JSDate) : 0 ≤ getDay dt := by
  unfold getDay
  exact Int.emod_nonneg _ (by norm_num)

theorem getDay_ub (dt : JSDate) : getDay dt ≤ 6 := by
  have h := Int.emod_lt_of_pos (daysFromCivil dt + 4) (show (0 : Int) < 7 by norm_num)
  unfold getDay
  omega

/-- Explicit form of the 42-cell grid for a reference date with an in-range
month index: the leading run of previous-month days, the current month, and
the trailing run of next-month days, with every cell in normalized form. -/
theorem getDaysInMonth_eq (y m d t : Int) (hm0 : 0 ≤ m) (hm1 : m ≤ 11) :
    getDaysInMonth ⟨y, m, d, t⟩ =
      (List.range (getDay (mkDate y m 1)).toNat).map
        (fun (k : ℕ) => (⟨prevY y m, prevM m,
          monthLen (prevY y m) (prevM m) - getDay (mkDate y m 1) + 1 + (k : Int),
          0⟩ : JSDate))
      ++ (List.range (monthLen y m).toNat).map
        (fun (k : ℕ) => (⟨y, m, (k : Int) + 1, 0⟩ : JSDate))
      ++ (List.range ((42 : Int) - getDay (mkDate y m 1) - monthLen y m).toNat).map
        (fun (k : ℕ) => (⟨nextY y m, nextM m, (k : Int) + 1, 0⟩ : JSDate)) := by
  have hs0 := getDay_lb (mkDate y m 1)
  have hs6 := getDay_ub (mkDate y m 1)
  have hL1 := monthLen_lb y m
  have hL2 := monthLen_ub y m
  have hP1 := monthLen_lb (prevY y m) (prevM m)
  have hN1 := monthLen_lb (nextY y m) (nextM m)
  simp only [getDaysInMonth]
  rw [mkDate_succ_zero hm0 hm1, mkDate_zero hm0 hm1]
  simp only [List.length_map, List.length_range]
  rw [Int.toNat_of_nonneg hs0, Int.toNat_of_nonneg (show (0 : Int) ≤ monthLen y m by omega)]
  have hcount : (42 : Int) - (getDay (mkDate y m 1) + monthLen y m) =
      42 - getDay (mkDate y m 1) - monthLen y m := by ring
  rw [hcount]
  congr 1
  congr 1
  · apply List.map_congr_left
    intro k hk
    rw [List.mem_range] at hk
    have hk2 : (k : Int) < getDay (mkDate y m 1) := by omega
    exact mkDate_pred_month hm0 hm1 (by omega) (by omega)
  · apply List.map_congr_left
    intro k hk
    rw [List.mem_range] at hk
    have hk2 : (k : Int) < monthLen y m := by omega
    exact mkDate_self hm0 hm1 (by omega) (by omega)
  · apply List.map_congr_left
    intro k hk
    rw [List.mem_range] at hk
    have hk2 : (k : Int) < 42 - getDay (mkDate y m 1) - monthLen y m := by omega
    exact mkDate_succ_month hm0 hm1 (by omega) (by omega)

theorem getDaysInMonth_length (y m d t : Int) (hm0 : 0 ≤ m) (hm1 : m ≤ 11) :
    (getDaysInMonth ⟨y, m, d, t⟩).length = 42 := by
  have hs0 := getDay_lb (mkDate y m 1)
  have hs6 := getDay_ub (mkDate y m 1)
  have hL1 := monthLen_lb y m
  have hL2 := monthLen_ub y m
  rw [getDaysInMonth_eq y m d t hm0 hm1]
  simp only [List.length_append, List.length_map, List.length_range]
  omega

/-- Cell `i` of the grid is `gridCell y m i`. -/
theorem getDaysInMonth_getElem (y m d t : Int) (hm0 : 0 ≤ m) (hm1 : m ≤ 11)
    (i : ℕ) (hi : i < 42) :
    (getDaysInMonth ⟨y, m, d, t⟩)[i]? = some (gridCell y m i) := by
  have hs0 := getDay_lb (mkDate y m 1)
  have hs6 := getDay_ub (mkDate y m 1)
  have hL1 := monthLen_lb y m
  have hL2 := monthLen_ub y m
  rw [getDaysInMonth_eq y m d t hm0 hm1]
  unfold gridCell
  by_cases h1 : (i : Int) < getDay (mkDate y m 1)
  · rw [List.getElem?_append_left (by
      simp only [List.length_append, List.length_map, List.length_range]
      omega)]
    rw [List.getElem?_append_left (by
      simp only [List.length_map, List.length_range]
      omega)]
    rw [List.getElem?_map, List.getElem?_range (by omega : i < (getDay (mkDate y m 1)).toNat)]
    rw [if_pos h1]
    rfl
  · by_cases h2 : (i : Int) < getDay (mkDate y m 1) + monthLen y m
    · rw [List.getElem?_append_left (by
        simp only [List.length_append, List.length_map, List.length_range]
        omega)]
      rw [List.getElem?_append_right (by
        simp only [List.length_map, List.length_range]
        omega)]
      simp only [List.length_map, List.length_range]
      rw [List.getElem?_map, List.getElem?_range
        (by omega : i - (getDay (mkDate y m 1)).toNat < (monthLen y m).toNat)]
      rw [if_neg h1, if_pos h2]
      simp only [Option.map_some', Option.some.injEq, JSDate.mk.injEq]
      exact ⟨trivial, trivial, by omega, trivial⟩
    · rw [List.getElem?_append_right (by
        simp only [List.length_append, List.length_map, List.length_range]
        omega)]
      simp only [List.length_append, List.length_map, List.length_range]
      rw [List.getElem?_map, List.getElem?_range
        (by omega : i - ((getDay (mkDate y m 1)).toNat + (monthLen y m).toNat) <
          ((42 : Int) - getDay (mkDate y m 1) - monthLen y m).toNat)]
      rw [if_neg h1, if_neg h2]
      simp only [Option.map_some', Option.some.injEq, JSDate.mk.injEq]
      exact ⟨trivial, trivial, by omega, trivial⟩

theorem dateLt_prev_cur {y m d1 t1 d2 t2 : Int} (hm0 : 0 ≤ m) (hm1 : m ≤ 11) :
    dateLt ⟨prevY y m, prevM m, d1, t1⟩ ⟨y, m, d2, t2⟩ := by
  rcases eq_or_ne m 0 with h | h
  · subst h
    rw [show prevY y 0 = y - 1 from if_pos rfl, show prevM 0 = 11 from if_pos rfl]
    unfold dateLt
    dsimp only
    omega
  · rw [show prevY y m = y from if_neg h, show prevM m = m - 1 from if_neg h]
    unfold dateLt
    dsimp only
    omega

theorem dateLt_cur_next {y m d1 t1 d2 t2 : Int} (hm0 : 0 ≤ m) (hm1 : m ≤ 11) :
    dateLt ⟨y, m, d1, t1⟩ ⟨nextY y m, nextM m, d2, t2⟩ := by
  rcases eq_or_ne m 11 with h | h
  · subst h
    rw [show nextY y 11 = y + 1 from if_pos rfl, show nextM 11 = 0 from if_pos rfl]
    unfold dateLt
    dsimp only
    omega
  · rw [show nextY y m = y from if_neg h, show nextM m = m + 1 from if_neg h]
    unfold dateLt
    dsimp only
    omega

/-- Each grid cell is followed by the calendar successor of the previous one,
and the cells are strictly increasing in calendar order. -/
theorem gridCell_step (y m : Int) (hm0 : 0 ≤ m) (hm1 : m ≤ 11)
    (i : ℕ) (hi : i + 1 < 42) :
    gridCell y m (i + 1) = nextDay (gridCell y m i) ∧
    dateLt (gridCell y m i) (gridCell y m (i + 1)) := by
  have hs0 := getDay_lb (mkDate y m 1)
  have hs6 := getDay_ub (mkDate y m 1)
  have hL1 := monthLen_lb y m
  have hL2 := monthLen_ub y m
  have hP1 := monthLen_lb (prevY y m) (prevM m)
  have hN1 := monthLen_lb (nextY y m) (nextM m)
  have hpm := prevM_range hm0 hm1
  have hnm := nextM_range hm0 hm1
  unfold gridCell
  by_cases hA : ((i : ℤ) + 1) < getDay (mkDate y m 1)
  · have e1 : ((i + 1 : ℕ) : ℤ) < getDay (mkDate y m 1) := by push_cast; omega
    have e2 : ((i : ℕ) : ℤ) < getDay (mkDate y m 1) := by omega
    rw [if_pos e1, if_pos e2]
    constructor
    · unfold nextDay
      dsimp only
      rw [mkDate_self hpm.1 hpm.2 (by omega) (by omega)]
      simp only [JSDate.mk.injEq]
      exact ⟨trivial, trivial, by push_cast; omega, trivial⟩
    · unfold dateLt
      dsimp only
      omega
  · by_cases hB : ((i : ℕ) : ℤ) < getDay (mkDate y m 1)
    · have e1 : ¬ ((i + 1 : ℕ) : ℤ) < getDay (mkDate y m 1) := by push_cast; omega
      have e2 : ((i + 1 : ℕ) : ℤ) < getDay (mkDate y m 1) + monthLen y m := by
        push_cast
        omega
      rw [if_neg e1, if_pos e2, if_pos hB]
      constructor
      · unfold nextDay
        dsimp only
        have hday : monthLen (prevY y m) (prevM m) - getDay (mkDate y m 1) + 1 +
            (i : ℤ) + 1 = monthLen (prevY y m) (prevM m) + 1 := by omega
        rw [hday]
        rw [mkDate_rollover hpm.1 hpm.2]
        rw [nextY_prevYM hm0 hm1, nextM_prevM hm0 hm1]
        simp only [JSDate.mk.injEq]
        exact ⟨trivial, trivial, by push_cast; omega, trivial⟩
      · exact dateLt_prev_cur hm0 hm1
    · by_cases hC : ((i : ℤ) + 1) < getDay (mkDate y m 1) + monthLen y m
      · have e1 : ¬ ((i + 1 : ℕ) : ℤ) < getDay (mkDate y m 1) := by push_cast; omega
        have e2 : ((i + 1 : ℕ) : ℤ) < getDay (mkDate y m 1) + monthLen y m := by
          push_cast
          omega
        have e3 : ¬ ((i : ℕ) : ℤ) < getDay (mkDate y m 1) := hB
        have e4 : ((i : ℕ) : ℤ) < getDay (mkDate y m 1) + monthLen y m := by omega
        rw [if_neg e1, if_pos e2, if_neg e3, if_pos e4]
        constructor
        · unfold nextDay
          dsimp only
          rw [mkDate_self (d := (i : ℤ) - getDay (mkDate y m 1) + 1 + 1)
            hm0 hm1 (by omega) (by omega)]
          simp only [JSDate.mk.injEq]
          exact ⟨trivial, trivial, by push_cast; omega, trivial⟩
        · unfold dateLt
          dsimp only
          push_cast
          omega
      · by_cases hD : ((i : ℕ) : ℤ) < getDay (mkDate y m 1) + monthLen y m
        · have e1 : ¬ ((i + 1 : ℕ) : ℤ) < getDay (mkDate y m 1) := by
            push_cast
            omega
          have e2 : ¬ ((i + 1 : ℕ) : ℤ) <
              getDay (mkDate y m 1) + monthLen y m := by
            push_cast
            omega
          rw [if_neg e1, if_neg e2, if_neg hB, if_pos hD]
          constructor
          · unfold nextDay
            dsimp only
            have hday : (i : ℤ) - getDay (mkDate y m 1) + 1 + 1 =
                monthLen y m + 1 := by omega
            rw [hday]
            rw [mkDate_rollover hm0 hm1]
            simp only [JSDate.mk.injEq]
            exact ⟨trivial, trivial, by push_cast; omega, trivial⟩
          · exact dateLt_cur_next hm0 hm1
        · have e1 : ¬ ((i + 1 : ℕ) : ℤ) < getDay (mkDate y m 1) := by
            push_cast
            omega
          have e2 : ¬ ((i + 1 : ℕ) : ℤ) <
              getDay (mkDate y m 1) + monthLen y m := by
            push_cast
            omega
          rw [if_neg e1, if_neg e2, if_neg hB, if_neg hD]
          constructor
          · unfold nextDay
            dsimp only
            rw [mkDate_self hnm.1 hnm.2 (by omega) (by omega)]
            simp only [JSDate.mk.injEq]
            exact ⟨trivial, trivial, by push_cast; omega, trivial⟩
          · unfold dateLt
            dsimp only
            push_cast
            omega

/-! ### Claim theorems -/

/-- Claim C2: for every reference date, the month grid (`getDaysInMonth`) has
exactly 42 entries, the entries are consecutive, strictly increasing calendar
dates, and the 1st of the reference month sits at the index equal to the
weekday number (Sunday = 0) of that 1st. -/
theorem claim_C2_month_grid (ref : JSDate) (h : Normalized ref) :
    (getDaysInMonth ref).length = 42 ∧
    List.Chain' (fun a b => b = nextDay a) (getDaysInMonth ref) ∧
    List.Pairwise dateLt (getDaysInMonth ref) ∧
    (getDaysInMonth ref)[(getDay (mkDate ref.year ref.month 1)).toNat]? =
      some ⟨ref.year, ref.month, 1, 0⟩ := by
  obtain ⟨y, m, d, t⟩ := ref
  unfold Normalized at h
  obtain ⟨hm0, hm1, hd1, hd2⟩ := h
  dsimp only at hm0 hm1 hd1 hd2 ⊢
  have hlen := getDaysInMonth_length y m d t hm0 hm1
  have hs0 := getDay_lb (mkDate y m 1)
  have hs6 := getDay_ub (mkDate y m 1)
  have hget : ∀ (j : ℕ) (hj : j < (getDaysInMonth ⟨y, m, d, t⟩).length),
      (getDaysInMonth ⟨y, m, d, t⟩).get ⟨j, hj⟩ = gridCell y m j := by
    intro j hj
    have g := getDaysInMonth_getElem y m d t hm0 hm1 j (by omega)
    rw [List.getElem?_eq_getElem hj] at g
    rw [List.get_eq_getElem]
    exact Option.some.inj g
  have hchain : List.Chain' (fun a b => b = nextDay a ∧ dateLt a b)
      (getDaysInMonth ⟨y, m, d, t⟩) := by
    rw [List.chain'_iff_get]
    intro i hgi
    rw [hlen] at hgi
    rw [hget i (by omega), hget (i + 1) (by omega)]
    exact gridCell_step y m hm0 hm1 i (by omega)
  have hidx : gridCell y m (getDay (mkDate y m 1)).toNat = ⟨y, m, 1, 0⟩ := by
    unfold gridCell
    rw [if_neg (by rw [Int.toNat_of_nonneg hs0]; omega),
      if_pos (by rw [Int.toNat_of_nonneg hs0]; have := monthLen_lb y m; omega)]
    simp only [JSDate.mk.injEq]
    exact ⟨trivial, trivial, by rw [Int.toNat_of_nonneg hs0]; omega, trivial⟩
  refine ⟨hlen, hchain.imp (fun a b hab => hab.1),
    List.chain'_iff_pairwise.mp (hchain.imp (fun a b hab => hab.2)), ?_⟩
  rw [getDaysInMonth_getElem y m d t hm0 hm1 (getDay (mkDate y m 1)).toNat
    (by omega), hidx]

/-- Witness for claim C2 at the concrete reference date 2024-03-15. -/
theorem claim_C2_month_grid_witness :
    (getDaysInMonth ⟨2024, 2, 15, 0⟩).length = 42 ∧
    List.Chain' (fun a b => b = nextDay a) (getDaysInMonth ⟨2024, 2, 15, 0⟩) ∧
    List.Pairwise dateLt (getDaysInMonth ⟨2024, 2, 15, 0⟩) ∧
    (getDaysInMonth ⟨2024, 2, 15, 0⟩)[(getDay (mkDate 2024 2 1)).toNat]? =
      some ⟨2024, 2, 1, 0⟩ :=
  claim_C2_month_grid ⟨2024, 2, 15, 0⟩ (by decide)

/-- Claim C1 (failing input): `getPreviousMonth` on March 31, 2024
(`new Date(2024, 2, 31)`) returns March 2, 2024: `setMonth(getMonth() - 1)`
produces February 31, whose day-of-month rollover re-enters March instead of
landing in February as the specification requires. -/
theorem claim_C1_previous_month_failing_input :
    getPreviousMonth ⟨2024, 2, 31, 0⟩ = ⟨2024, 2, 2, 0⟩ := by
  unfold getPreviousMonth
  dsimp only
  unfold mkDate
  rw [show ((2 : Int) - 1) / 12 = 0 from by decide,
    show ((2 : Int) - 1) % 12 = 1 from by decide, add_zero]
  rw [@carryLoop_step 2024 1 31 (by decide)]
  rw [show nextY 2024 1 = 2024 from by decide,
    show nextM 1 = 2 from by decide,
    show (31 : Int) - monthLen 2024 1 = 2 from by decide]
  rw [@carryLoop_of_le 2024 2 2 (by decide)]
  dsimp only
  rw [@borrowLoop_of_ge 2024 2 2 (by decide)]

/-- Claim C3 (counterexample): `roundToStep` does not resolve exact halves
away from zero: at `-15` the code yields `-10` (`Math.round` sends halves
toward positive infinity) while half-away-from-zero demands `-20`. -/
theorem claim_C3_counterexample :
    roundToStep (-15) = -10 ∧ roundToStepAwayFromZero (-15) = -20 ∧
    roundToStep (-15) ≠ roundToStepAwayFromZero (-15) := by
  have h1 : (-15 : ℚ) / 10 + 1 / 2 = ((-1 : ℤ) : ℚ) := by norm_num
  have h2 : -(-15 : ℚ) / 10 + 1 / 2 = ((2 : ℤ) : ℚ) := by norm_num
  have e1 : roundToStep (-15) = -10 := by
    unfold roundToStep jsRound
    rw [h1, Int.floor_intCast]
    norm_num
  have e2 : roundToStepAwayFromZero (-15) = -20 := by
    unfold roundToStepAwayFromZero
    rw [if_neg (by norm_num), h2, Int.floor_intCast]
    norm_num
  refine ⟨e1, e2, ?_⟩
  rw [e1, e2]
  norm_num

/-- Claim C3 (amended): `roundToStep x` is always a multiple of 10 (also for
negative `x`) and is a nearest multiple of 10 to `x`; an exact half (distance
exactly 5) is resolved toward positive infinity, i.e. to `x + 5`. -/
theorem claim_C3_round_to_step (x : ℚ) :
    (∃ k : ℤ, roundToStep x = 10 * k) ∧
    |roundToStep x - x| ≤ 5 ∧
    (|roundToStep x - x| = 5 → roundToStep x = x + 5) := by
  have h1 : ((⌊x / 10 + 1 / 2⌋ : ℤ) : ℚ) ≤ x / 10 + 1 / 2 := Int.floor_le _
  have h2 : x / 10 + 1 / 2 - 1 < ((⌊x / 10 + 1 / 2⌋ : ℤ) : ℚ) :=
    Int.sub_one_lt_floor _
  unfold roundToStep jsRound
  refine ⟨⟨⌊x / 10 + 1 / 2⌋, by ring⟩, ?_, ?_⟩
  · rw [abs_le]
    constructor
    · linarith
    · linarith
  · intro h
    rw [abs_eq (by norm_num : (0 : ℚ) ≤ 5)] at h
    rcases h with h | h
    · linarith
    · exfalso
      linarith

/-- Witness for the amended claim C3 at `x = 15`: 15 is an exact half and is
rounded up to 20 = 15 + 5. -/
theorem claim_C3_round_to_step_witness :
    (∃ k : ℤ, roundToStep 15 = 10 * k) ∧
    |roundToStep 15 - 15| ≤ 5 ∧
    (|roundToStep 15 - 15| = 5 → roundToStep 15 = 15 + 5) :=
  claim_C3_round_to_step 15

/-- Claim C4: `roundToStep` is idempotent on nonnegative inputs. -/
theorem claim_C4_idempotent (x : ℚ) (_h : 0 ≤ x) :
    roundToStep (roundToStep x) = roundToStep x := by
  unfold roundToStep jsRound
  have h10 : ((⌊x / 10 + 1 / 2⌋ : ℤ) : ℚ) * 10 / 10 =
      ((⌊x / 10 + 1 / 2⌋ : ℤ) : ℚ) := by
    field_simp
  rw [h10, add_comm, Int.floor_add_int,
    show ⌊(1 : ℚ) / 2⌋ = 0 from by norm_num [Int.floor_eq_iff]]
  norm_num

/-- Witness for claim C4 at `x = 123`. -/
theorem claim_C4_idempotent_witness :
    roundToStep (roundToStep 123) = roundToStep 123 :=
  claim_C4_idempotent 123 (by norm_num)

/-- Claim C5: clicking a date equal (by calendar day) to the current filter
selection clears the filter, clicking any other date selects it, and two
clicks on the same date starting from the empty selection return to the empty
selection. -/
theorem claim_C5_select_toggle (cur : Option JSDate) (d : JSDate) :
    (isDateSelected cur d = true → handleDateClick cur d = none) ∧
    (isDateSelected cur d = false → handleDateClick cur d = some d) ∧
    handleDateClick (handleDateClick none d) d = none := by
  refine ⟨?_, ?_, ?_⟩
  · intro h
    unfold handleDateClick
    rw [if_pos h]
  · intro h
    unfold handleDateClick
    rw [if_neg (by rw [h]; exact Bool.false_ne_true)]
  · simp [handleDateClick, isDateSelected]

/-- Witness for claim C5: toggling 2024-03-15 twice from the empty selection. -/
theorem claim_C5_select_toggle_witness :
    handleDateClick (handleDateClick none ⟨2024, 2, 15, 0⟩) ⟨2024, 2, 15, 0⟩ =
      none :=
  (claim_C5_select_toggle none ⟨2024, 2, 15, 0⟩).2.2

/-- Claim C6: with at most one category, `deleteCategory` fires the guard
alert and leaves the state untouched; the named category is removed (when the
user confirms) only when at least two categories exist, and any change at all
implies at least two categories existed. -/
theorem claim_C6_delete_category_guard (st : CategoryState) (name : String)
    (conf : Bool) :
    (st.categories.length ≤ 1 → deleteCategory st name conf = (st, true)) ∧
    (2 ≤ st.categories.length → (deleteCategory st name conf).2 = false) ∧
    (2 ≤ st.categories.length → conf = true →
      (deleteCategory st name conf).1.categories =
        st.categories.filter (fun cat => cat != name)) ∧
    ((deleteCategory st name conf).1.categories ≠ st.categories →
      2 ≤ st.categories.length) := by
  unfold deleteCategory
  by_cases h1 : st.categories.length ≤ 1
  · rw [if_pos h1]
    exact ⟨fun _ => rfl, fun h2 => absurd h2 (by omega),
      fun h2 _ => absurd h2 (by omega), fun hne => absurd rfl hne⟩
  · rw [if_neg h1]
    by_cases h2 : conf = true
    · rw [if_pos h2]
      exact ⟨fun h => absurd h h1, fun _ => rfl, fun _ _ => rfl,
        fun _ => by omega⟩
    · rw [if_neg h2]
      exact ⟨fun h => absurd h h1, fun _ => rfl, fun _ hc => absurd hc h2,
        fun hne => absurd rfl hne⟩

/-- Witness for claim C6: deleting from a one-element registry returns the
state unchanged together with the guard signal. -/
theorem claim_C6_delete_category_guard_witness :
    deleteCategory ⟨["food"], "food"⟩ "food" true = (⟨["food"], "food"⟩, true) :=
  (claim_C6_delete_category_guard ⟨["food"], "food"⟩ "food" true).1 (by decide)

/-- Claim C7: the month-over-month percentage is rendered only under the
explicit `previous > 0` guard: a zero previous value omits the line, and any
rendered percentage arises from a strictly positive previous value. -/
theorem claim_C7_delta_pct_guard (current previous : ℚ) :
    (previous = 0 → renderedDeltaPct current previous = none) ∧
    (∀ p, renderedDeltaPct current previous = some p →
      0 < previous ∧ p = (current / previous - 1) * 100) := by
  unfold renderedDeltaPct
  constructor
  · intro h
    subst h
    rw [if_neg (lt_irrefl 0)]
  · intro p hp
    by_cases h : previous > 0
    · rw [if_pos h, if_pos h] at hp
      exact ⟨h, (Option.some.inj hp).symm⟩
    · rw [if_neg h] at hp
      exact Option.noConfusion hp

/-- Witness for claim C7: a zero previous-month income renders no percentage. -/
theorem claim_C7_delta_pct_guard_witness : renderedDeltaPct 200 0 = none :=
  (claim_C7_delta_pct_guard 200 0).1 rfl

theorem foldl_add_eq (f : Transaction → ℚ) (l : List Transaction) :
    ∀ c : ℚ, l.foldl (fun sum t => sum + f t) c = c + (l.map f).sum := by
  induction l with
  | nil => intro c; simp
  | cons hd tl ih =>
    intro c
    rw [List.foldl_cons, ih (c + f hd), List.map_cons, List.sum_cons]
    ring

/-- Claim C8: aggregation is order-independent: permuting the transaction
list changes neither `calculateSummary` nor any `getTotalForDate` value. -/
theorem claim_C8_order_independent (l1 l2 : List Transaction)
    (h : l1.Perm l2) :
    calculateSummary l1 = calculateSummary l2 ∧
    ∀ date : JSDate, getTotalForDate l1 date = getTotalForDate l2 date := by
  constructor
  · unfold calculateSummary
    have e1 : (l1.filter (fun t => t.type == .income)).foldl
          (fun sum t => sum + t.amount) 0 =
        (l2.filter (fun t => t.type == .income)).foldl
          (fun sum t => sum + t.amount) 0 := by
      rw [foldl_add_eq, foldl_add_eq]
      rw [((h.filter _).map _).sum_eq]
    have e2 : (l1.filter (fun t => t.type == .expense)).foldl
          (fun sum t => sum + t.amount) 0 =
        (l2.filter (fun t => t.type == .expense)).foldl
          (fun sum t => sum + t.amount) 0 := by
      rw [foldl_add_eq, foldl_add_eq]
      rw [((h.filter _).map _).sum_eq]
    rw [e1, e2]
  · intro date
    unfold getTotalForDate getTransactionsForDate
    rw [foldl_add_eq, foldl_add_eq]
    rw [((h.filter _).map _).sum_eq]

/-- Witness for claim C8: swapping two concrete rows leaves the summary
unchanged. -/
theorem claim_C8_order_independent_witness :
    calculateSummary
      [⟨1, 100, "a", "food", .income, ⟨2024, 2, 1, 0⟩⟩,
       ⟨2, 50, "b", "food", .expense, ⟨2024, 2, 1, 0⟩⟩] =
    calculateSummary
      [⟨2, 50, "b", "food", .expense, ⟨2024, 2, 1, 0⟩⟩,
       ⟨1, 100, "a", "food", .income, ⟨2024, 2, 1, 0⟩⟩] :=
  (claim_C8_order_independent _ _ (by decide)).1

/-- Claim C9: the month grid depends only on the year and month of the
reference date; the day of month and time of day are ignored. -/
theorem claim_C9_grid_same_month (a b : JSDate)
    (hy : a.year = b.year) (hm : a.month = b.month) :
    getDaysInMonth a = getDaysInMonth b := by
  obtain ⟨y1, m1, d1, t1⟩ := a
  obtain ⟨y2, m2, d2, t2⟩ := b
  dsimp only at hy hm
  subst hy
  subst hm
  rfl

/-- Witness for claim C9: two references in March 2024 with different days
and times of day yield the same grid. -/
theorem claim_C9_grid_same_month_witness :
    getDaysInMonth ⟨2024, 2, 5, 0⟩ = getDaysInMonth ⟨2024, 2, 31, 12345⟩ :=
  claim_C9_grid_same_month ⟨2024, 2, 5, 0⟩ ⟨2024, 2, 31, 12345⟩ rfl rfl

/-- Claim C10: on blur, the amount state changes only when the field parses
to a nonnegative number: empty, non-numeric (NaN) and negative inputs leave
the state untouched. -/
theorem claim_C10_blur_guard (parse : String → Option ℚ) (value : String) :
    (value = "" → handleAmountBlur parse value = none) ∧
    (parse value = none → handleAmountBlur parse value = none) ∧
    (∀ q, parse value = some q → q < 0 → handleAmountBlur parse value = none) := by
  refine ⟨?_, ?_, ?_⟩
  · intro h
    unfold handleAmountBlur
    rw [if_pos h]
  · intro h
    unfold handleAmountBlur
    by_cases hv : value = ""
    · rw [if_pos hv]
    · rw [if_neg hv, h]
  · intro q hq hneg
    unfold handleAmountBlur
    by_cases hv : value = ""
    · rw [if_pos hv]
    · rw [if_neg hv, hq]
      show (if 0 ≤ q then some (roundToStep q) else none) = none
      rw [if_neg (not_le.mpr hneg)]

/-- Witness for claim C10: a field value parsing to -5 is left unchanged. -/
theorem claim_C10_blur_guard_witness :
    handleAmountBlur (fun _ => some (-5)) "x" = none :=
  (claim_C10_blur_guard (fun _ => some (-5)) "x").2.2 (-5) rfl (by norm_num)

end BudgetApp
